import Mathlib

/-!
Verification of the endorsement-support module (`core/endorser/support.go`) of
ATLab-FabricFaster.

The development shallowly embeds the module's data model and operations:

* `decorLoop` — the sequential decoration loop of `SupportImpl.Execute`
  (lines 147-153 of the source), which empties each input's decoration map,
  applies the registered decorators, and updates the shared transaction
  parameters;
* `selectBackend` / `effectiveVersion` / `taskCall` / `taskOutcome` — the
  per-index dispatch of `Execute` (lines 160-182): backend selection with the
  config-block override, the per-backend chaincode version, and the execute
  call made by each spawned task;
* `aggLoop` — the aggregation loop of `Execute` (lines 185-202), modelled as a
  fold over the stream of task outcomes in completion order (each outcome is
  the aligned (response, event, error) triple of one task);
* `ExecuteModel` — the composition of the three phases, parameterised by the
  completion order of the tasks;
* the sibling ledger-delegation methods (`GetTxSimulator`,
  `GetHistoryQueryExecutor`, `GetTransactionByID`, `GetLedgerHeight`,
  `NewQueryCreator`) and `CheckACL`.

Concurrency is modelled by quantifying over the completion order in which the
aggregation loop receives the task outcomes; a batch of N tasks yields a
stream that is a permutation of the N per-index outcomes.
-/

/-- String literal constants of the source, bound to names. -/
def configBlockMarker : String := "GetConfigBlock"

def csccName : String := "cscc"

def lsccName : String := "lscc"

def dashSep : String := "-"

/-- `pb.ChaincodeInput`: argument list plus decoration map (modelled as an
association list, byte slices modelled as strings). -/
structure ChaincodeInput where
  Args : List String
  Decorations : List (String × String)
deriving DecidableEq, Repr, Inhabited

/-- `ccprovider.CCContext`: the chaincode context built by each task. -/
structure CCContext where
  Name : String
  Version : String
deriving DecidableEq, Repr, Inhabited

/-- `ccprovider.TransactionParams`: the field `Execute` touches, plus an
opaque remainder standing for the untouched fields. -/
structure TransactionParams (O : Type) where
  ProposalDecorations : List (String × String)
  other : O
deriving DecidableEq, Repr

/-- One task outcome: the (response, event, error) triple produced by one
dispatched task (a nil Go error is `none`). -/
structure Outcome (R E Err : Type) where
  response : R
  event : E
  error : Option Err
deriving DecidableEq, Repr

/-- `chaincode.ChaincodeSupport`: a backend with its container tag and its
`Execute` operation. -/
structure ChaincodeSupport (O R E Err : Type) where
  CCContainerName : String
  run : TransactionParams O → CCContext → ChaincodeInput → R × E × Option Err

/-- A registered decorator (`decoration.Decorator`): proposal and input to
enriched input. -/
def Decorator (P : Type) : Type := P → ChaincodeInput → ChaincodeInput

/-- Modelled from the spec: `decoration.Apply` (package
`core/handlers/decoration`, not under `src/`) applies the registered
decorators to the input in their fixed registration order, each receiving the
output of the previous one. -/
def Apply {P : Type} (proposal : P) (input : ChaincodeInput)
    (decorators : List (Decorator P)) : ChaincodeInput :=
  decorators.foldl (fun inp d => d proposal inp) input

/-- The decoration loop of `Execute` (source lines 147-153): sequentially, in
index order, reset each input's decoration map to empty, apply the
decorators, store the decorated input back, and set the shared transaction
parameters' `ProposalDecorations` to the decorated input's decorations. -/
def decorLoop {P O : Type} (decorators : List (Decorator P)) :
    List (P × ChaincodeInput) → TransactionParams O →
    List ChaincodeInput × TransactionParams O
  | [], txp => ([], txp)
  | pr :: rest, txp =>
    let input1 := Apply pr.1 { pr.2 with Decorations := [] } decorators
    let res := decorLoop decorators rest
      { txp with ProposalDecorations := input1.Decorations }
    (input1 :: res.1, res.2)

/-- The per-task chaincode version (source lines 169-172): the caller version,
with the backend container tag appended when the name is neither of the two
reserved system chaincode names. -/
def effectiveVersion (name version containerName : String) : String :=
  if name ≠ csccName ∧ name ≠ lsccName then
    version ++ dashSep ++ containerName
  else version

/-- Backend selection for one index (source lines 162-166): backend `i` of the
roster, overridden to the last backend of the roster when the input's first
argument is the config-block marker. -/
def selectBackend {O R E Err : Type} (roster : List (ChaincodeSupport O R E Err))
    (input : ChaincodeInput) (i : Nat) : Option (ChaincodeSupport O R E Err) :=
  if input.Args.head? = some configBlockMarker then
    roster[roster.length - 1]?
  else
    roster[i]?

/-- The call made by the task spawned for index `i` (source lines 168-178):
the selected backend, the shared transaction parameters, the chaincode
context carrying the effective version, and the decorated input of index
`i`. -/
def taskCall {O R E Err : Type} (roster : List (ChaincodeSupport O R E Err))
    (name version : String) (txp : TransactionParams O)
    (inputs : List ChaincodeInput) (i : Nat) :
    Option (ChaincodeSupport O R E Err × TransactionParams O × CCContext × ChaincodeInput) :=
  (selectBackend roster (inputs.getD i default) i).map fun sup =>
    (sup, txp, ⟨name, effectiveVersion name version sup.CCContainerName⟩,
      inputs.getD i default)

/-- The outcome produced by the task of index `i`: the triple returned by the
selected backend's execute operation on the task's call arguments. -/
def taskOutcome {O R E Err : Type} (roster : List (ChaincodeSupport O R E Err))
    (name version : String) (txp : TransactionParams O)
    (inputs : List ChaincodeInput) (i : Nat) : Option (Outcome R E Err) :=
  (taskCall roster name version txp inputs i).map fun call =>
    ⟨(call.1.run call.2.1 call.2.2.1 call.2.2.2).1,
     (call.1.run call.2.1 call.2.2.1 call.2.2.2).2.1,
     (call.1.run call.2.1 call.2.2.1 call.2.2.2).2.2⟩

/-- The aggregation loop of `Execute` (source lines 185-202) over the stream
of task outcomes in completion order.  Each iteration reads one outcome,
appends its response and event, stores its error as the running error, exits
when the response count reaches `N`, and otherwise overwrites index 0 of both
collections with the outcome's response and event when its error is non-nil.
Returns the collections, the running error, and the unconsumed stream (the
empty-stream case stands for the loop blocking forever: it never applies,
since every theorem below supplies at least `N` outcomes). -/
def aggLoop {R E Err : Type} (N : Nat) :
    List (Outcome R E Err) → List R → List E → Option Err →
    List R × List E × Option Err × List (Outcome R E Err)
  | [], resps, evts, err => (resps, evts, err, [])
  | o :: rest, resps, evts, _ =>
    if N ≤ (resps ++ [o.response]).length then
      (resps ++ [o.response], evts ++ [o.event], o.error, rest)
    else
      match o.error with
      | some e =>
        aggLoop N rest ((resps ++ [o.response]).set 0 o.response)
          ((evts ++ [o.event]).set 0 o.event) (some e)
      | none => aggLoop N rest (resps ++ [o.response]) (evts ++ [o.event]) none

/-- `SupportImpl.Execute` (source lines 138-209): decoration loop, dispatch of
one task per input, and aggregation of the outcome stream determined by the
completion order `order` (a permutation of the task indices). -/
def ExecuteModel {P O R E Err : Type} (roster : List (ChaincodeSupport O R E Err))
    (decorators : List (Decorator P)) (name version : String)
    (txp : TransactionParams O) (props : List P) (inputs : List ChaincodeInput)
    (order : List Nat) : List R × List E × Option Err :=
  let dec := decorLoop decorators (props.zip inputs) txp
  let outs := order.filterMap (taskOutcome roster name version dec.2 dec.1)
  let a := aggLoop inputs.length outs [] [] none
  (a.1, a.2.1, a.2.2.1)

/-- Overwrite slot 0 of a list when a value is supplied. -/
def setSlot0 {α : Type} (l : List α) : Option α → List α
  | some a => l.set 0 a
  | none => l

/-- The outcome whose pair ends up in slot 0 via the overwrite-on-error
policy: the last outcome carrying a non-nil error among all consumed outcomes
except the final one (the loop exits before the final outcome's overwrite). -/
def lastFailBeforeLast {R E Err : Type} (outs : List (Outcome R E Err)) :
    Option (Outcome R E Err) :=
  (outs.dropLast.filter fun o => o.error.isSome).getLast?

/-- The error of the last consumed outcome: the value of the loop's running
error variable at exit. -/
def lastError {R E Err : Type} (outs : List (Outcome R E Err)) : Option Err :=
  match outs.getLast? with
  | some o => o.error
  | none => none

/-- `common.BlockchainInfo`: the field `GetLedgerHeight` reads. -/
structure BlockchainInfo where
  Height : Nat
deriving DecidableEq, Repr, Inhabited

/-- A ledger handle (`ledger.PeerLedger`): the operations the delegation
methods call on it, each returning a Go-style (value, error) pair. -/
structure LedgerHandle (TxSim HQE Tx : Type) where
  NewTxSimulator : String → Option TxSim × Option String
  NewHistoryQueryExecutor : Option HQE × Option String
  GetTransactionByID : String → Option Tx × Option String
  GetBlockchainInfo : BlockchainInfo × Option String

/-- The `s.Peer.GetLedger` lookup: a channel name to a ledger handle or nil. -/
def PeerOperations (TxSim HQE Tx : Type) : Type :=
  String → Option (LedgerHandle TxSim HQE Tx)

/-- Error message of `GetTxSimulator` / `GetHistoryQueryExecutor` for an
unknown channel. -/
def msgChannelNotExist (ch : String) : String :=
  "Channel does not exist: " ++ ch

/-- Error message of `GetTransactionByID` / `GetLedgerHeight` for an unknown
channel. -/
def msgNoLedger (ch : String) : String :=
  "failed to look up the ledger for Channel " ++ ch

/-- Error message of `NewQueryCreator` for an unknown channel. -/
def msgChannelDoesntExist (ch : String) : String :=
  "channel " ++ ch ++ " doesn't exist"

/-- `SupportImpl.GetTxSimulator` (source lines 62-68). -/
def GetTxSimulator {TxSim HQE Tx : Type} (peer : PeerOperations TxSim HQE Tx)
    (ledgername txid : String) : Option TxSim × Option String :=
  match peer ledgername with
  | none => (none, some (msgChannelNotExist ledgername))
  | some lgr => lgr.NewTxSimulator txid

/-- `SupportImpl.GetHistoryQueryExecutor` (source lines 72-78). -/
def GetHistoryQueryExecutor {TxSim HQE Tx : Type} (peer : PeerOperations TxSim HQE Tx)
    (ledgername : String) : Option HQE × Option String :=
  match peer ledgername with
  | none => (none, some (msgChannelNotExist ledgername))
  | some lgr => lgr.NewHistoryQueryExecutor

/-- `SupportImpl.GetTransactionByID` (source lines 81-93); `errors.WithMessage`
prepends its message to the wrapped error. -/
def GetTransactionByID {TxSim HQE Tx : Type} (peer : PeerOperations TxSim HQE Tx)
    (chid txID : String) : Option Tx × Option String :=
  match peer chid with
  | none => (none, some (msgNoLedger chid))
  | some lgr =>
    match lgr.GetTransactionByID txID with
    | (tx, none) => (tx, none)
    | (_, some e) => (none, some ("GetTransactionByID failed: " ++ e))

/-- `SupportImpl.GetLedgerHeight` (source lines 96-108); `errors.Wrap`
prepends the formatted message to the wrapped error. -/
def GetLedgerHeight {TxSim HQE Tx : Type} (peer : PeerOperations TxSim HQE Tx)
    (channelID : String) : Nat × Option String :=
  match peer channelID with
  | none => (0, some (msgNoLedger channelID))
  | some lgr =>
    match lgr.GetBlockchainInfo with
    | (info, none) => (info.Height, none)
    | (_, some e) =>
      (0, some ("failed to obtain information for Channel " ++ channelID ++ ": " ++ e))

/-- `SupportImpl.NewQueryCreator` (source lines 41-47): returns the ledger
handle itself as the query creator. -/
def NewQueryCreator {TxSim HQE Tx : Type} (peer : PeerOperations TxSim HQE Tx)
    (channel : String) : Option (LedgerHandle TxSim HQE Tx) × Option String :=
  match peer channel with
  | none => (none, some (msgChannelDoesntExist channel))
  | some lgr => (some lgr, none)

/-- `pb.SignedProposal`. -/
structure SignedProposal where
  ProposalBytes : String
  Signature : String
deriving DecidableEq, Repr, Inhabited

/-- `common.ChannelHeader`: the `ChannelId` field `CheckACL` reads, plus the
other header fields it ignores. -/
structure ChannelHeader where
  HeaderType : Nat
  Version : Nat
  ChannelId : String
  TxId : String
  Epoch : Nat
  Extension : String
deriving DecidableEq, Repr, Inhabited

/-- `common.SignatureHeader`. -/
structure SignatureHeader where
  Creator : String
  Nonce : String
deriving DecidableEq, Repr, Inhabited

/-- `pb.ChaincodeHeaderExtension`. -/
structure ChaincodeHeaderExtension where
  ChaincodeIdName : String
deriving DecidableEq, Repr, Inhabited

/-- The `resources.Peer_Propose` resource name constant. -/
def Peer_Propose : String := "peer/Propose"

/-- An ACL provider: resource name, channel id and signed proposal to an
error or nil. -/
def ACLProvider : Type := String → String → SignedProposal → Option String

/-- `SupportImpl.CheckACL` (source lines 219-221): delegates to the ACL
provider with the propose resource, the channel header's `ChannelId`, and the
signed proposal; the signature header and header extension arguments are
ignored. -/
def CheckACL (aclProvider : ACLProvider) (signedProp : SignedProposal)
    (chdr : ChannelHeader) (shdr : SignatureHeader)
    (hdrext : ChaincodeHeaderExtension) : Option String :=
  aclProvider Peer_Propose chdr.ChannelId signedProp

theorem setSlot0_length {α : Type} (l : List α) (a : Option α) :
    (setSlot0 l a).length = l.length := by
  cases a <;> simp [setSlot0]

theorem set_zero_append {α : Type} {l : List α} (hl : l ≠ []) (m : List α) (a : α) :
    (l.set 0 a) ++ m = (l ++ m).set 0 a := by
  cases l with
  | nil => exact absurd rfl hl
  | cons x t => rfl

theorem lastFailBeforeLast_singleton {R E Err : Type} (o : Outcome R E Err) :
    lastFailBeforeLast [o] = none := by
  simp [lastFailBeforeLast]

theorem lastError_singleton {R E Err : Type} (o : Outcome R E Err) :
    lastError [o] = o.error := by
  simp [lastError]

theorem lastError_cons_cons {R E Err : Type} (o r2 : Outcome R E Err)
    (rest2 : List (Outcome R E Err)) :
    lastError (o :: r2 :: rest2) = lastError (r2 :: rest2) := by
  simp [lastError, List.getLast?_cons_cons]

theorem lastFailBeforeLast_cons_cons {R E Err : Type} (o r2 : Outcome R E Err)
    (rest2 : List (Outcome R E Err)) :
    lastFailBeforeLast (o :: r2 :: rest2) =
      if o.error.isSome then some ((lastFailBeforeLast (r2 :: rest2)).getD o)
      else lastFailBeforeLast (r2 :: rest2) := by
  unfold lastFailBeforeLast
  rw [List.dropLast_cons₂, List.filter_cons]
  cases ho : o.error.isSome with
  | false => simp [ho]
  | true =>
    simp only [ho, if_pos]
    cases hl : ((r2 :: rest2).dropLast.filter fun o => o.error.isSome).getLast? with
    | none =>
      have hnil : (r2 :: rest2).dropLast.filter (fun o => o.error.isSome) = [] :=
        List.getLast?_eq_none_iff.mp hl
      simp [hnil]
    | some w =>
      have hne : (r2 :: rest2).dropLast.filter (fun o => o.error.isSome) ≠ [] := by
        intro h
        rw [h] at hl
        simp at hl
      obtain ⟨x, xs, hxxs⟩ := List.exists_cons_of_ne_nil hne
      rw [hxxs, List.getLast?_cons_cons, ← hxxs, hl]
      rfl

theorem setSlot0_set {α : Type} (B : List α) (x : α) (w : Option α) :
    setSlot0 (B.set 0 x) w = setSlot0 B (some (w.getD x)) := by
  cases w with
  | none => simp [setSlot0]
  | some a => simp [setSlot0, List.set_set]

theorem aggLoop_cons_exit {R E Err : Type} {N : Nat} (o : Outcome R E Err)
    (rest : List (Outcome R E Err)) (resps : List R) (evts : List E)
    (err : Option Err) (h : N ≤ resps.length + 1) :
    aggLoop N (o :: rest) resps evts err =
      (resps ++ [o.response], evts ++ [o.event], o.error, rest) := by
  have h2 : N ≤ (resps ++ [o.response]).length := by
    simpa using h
  simp only [aggLoop, if_pos h2]

theorem aggLoop_cons_continue_none {R E Err : Type} {N : Nat} {o : Outcome R E Err}
    (rest : List (Outcome R E Err)) (resps : List R) (evts : List E)
    (err : Option Err) (h : ¬ N ≤ resps.length + 1) (ho : o.error = none) :
    aggLoop N (o :: rest) resps evts err =
      aggLoop N rest (resps ++ [o.response]) (evts ++ [o.event]) none := by
  have h2 : ¬ N ≤ (resps ++ [o.response]).length := by
    simpa using h
  simp only [aggLoop, if_neg h2, ho]

theorem aggLoop_cons_continue_some {R E Err : Type} {N : Nat} {o : Outcome R E Err}
    {e : Err} (rest : List (Outcome R E Err)) (resps : List R) (evts : List E)
    (err : Option Err) (h : ¬ N ≤ resps.length + 1) (ho : o.error = some e) :
    aggLoop N (o :: rest) resps evts err =
      aggLoop N rest ((resps ++ [o.response]).set 0 o.response)
        ((evts ++ [o.event]).set 0 o.event) (some e) := by
  have h2 : ¬ N ≤ (resps ++ [o.response]).length := by
    simpa using h
  simp only [aggLoop, if_neg h2, ho]

/-- Closed form of the aggregation loop on a stream that starts with exactly
the `N - resps.length` outcomes `outs` and continues with `extra`: the loop
appends the responses and events of `outs` in completion order, overwrites
slot 0 with the pair of the last failing outcome among all but the final one,
returns the final outcome's error, and leaves `extra` unconsumed. -/
theorem aggLoop_run {R E Err : Type} (N : Nat) (outs : List (Outcome R E Err)) :
    ∀ (extra : List (Outcome R E Err)) (resps : List R) (evts : List E)
      (err : Option Err), outs ≠ [] → resps.length + outs.length = N →
      aggLoop N (outs ++ extra) resps evts err =
        (setSlot0 (resps ++ outs.map Outcome.response)
           ((lastFailBeforeLast outs).map Outcome.response),
         setSlot0 (evts ++ outs.map Outcome.event)
           ((lastFailBeforeLast outs).map Outcome.event),
         lastError outs, extra) := by
  induction outs with
  | nil =>
    intro extra resps evts err hne _
    exact absurd rfl hne
  | cons o rest ih =>
    intro extra resps evts err _ hlen
    cases rest with
    | nil =>
      rw [List.cons_append, List.nil_append,
        aggLoop_cons_exit o extra resps evts err (by simp at hlen; omega)]
      simp [lastFailBeforeLast_singleton, lastError_singleton, setSlot0]
    | cons r2 rest2 =>
      have hlt : ¬ N ≤ resps.length + 1 := by
        simp at hlen
        omega
      cases ho : o.error with
      | none =>
        rw [List.cons_append, aggLoop_cons_continue_none _ _ _ _ hlt ho,
          ih extra (resps ++ [o.response]) (evts ++ [o.event]) none
            (List.cons_ne_nil r2 rest2) (by simp at hlen ⊢; omega),
          lastFailBeforeLast_cons_cons, lastError_cons_cons]
        have hos : o.error.isSome = false := by
          rw [ho]
          rfl
        simp [hos, List.append_assoc]
      | some e =>
        rw [List.cons_append, aggLoop_cons_continue_some _ _ _ _ hlt ho,
          ih extra ((resps ++ [o.response]).set 0 o.response)
            ((evts ++ [o.event]).set 0 o.event) (some e)
            (List.cons_ne_nil r2 rest2) (by simp at hlen ⊢; omega),
          lastFailBeforeLast_cons_cons, lastError_cons_cons]
        have hos : o.error.isSome = true := by
          rw [ho]
          rfl
        rw [set_zero_append (by simp) (List.map Outcome.response (r2 :: rest2)) o.response,
          set_zero_append (by simp) (List.map Outcome.event (r2 :: rest2)) o.event,
          setSlot0_set, setSlot0_set]
        cases hw : lastFailBeforeLast (r2 :: rest2) with
        | none => simp [hw, hos, List.append_assoc]
        | some w => simp [hw, hos, List.append_assoc]

/-- Closed form of the loop on exactly `N` outcomes with empty accumulators. -/
theorem aggLoop_run_simple {R E Err : Type} (N : Nat) (outs : List (Outcome R E Err))
    (hne : outs ≠ []) (hlen : outs.length = N) :
    aggLoop N outs [] [] none =
      (setSlot0 (outs.map Outcome.response)
         ((lastFailBeforeLast outs).map Outcome.response),
       setSlot0 (outs.map Outcome.event)
         ((lastFailBeforeLast outs).map Outcome.event),
       lastError outs, []) := by
  have h := aggLoop_run N outs [] ([] : List R) ([] : List E) none hne
    (by simpa using hlen)
  simpa using h

theorem filter_eq_singleton_of_unique {α : Type} (p : α → Bool) :
    ∀ (l : List α) (i : Nat) (o : α), l[i]? = some o → p o = true →
      (∀ k o', l[k]? = some o' → k ≠ i → p o' = false) → l.filter p = [o] := by
  intro l
  induction l with
  | nil =>
    intro i o h
    simp at h
  | cons a t ih =>
    intro i o h hp hothers
    cases i with
    | zero =>
      rw [List.getElem?_cons_zero] at h
      obtain rfl : a = o := by injection h
      have hta : t.filter p = [] := by
        rw [List.filter_eq_nil_iff]
        intro x hx
        obtain ⟨k, hk⟩ := List.mem_iff_getElem?.mp hx
        have hh := hothers (k + 1) x (by simpa using hk) (by omega)
        simp [hh]
      rw [List.filter_cons, if_pos hp, hta]
    | succ j =>
      have hpa : p a = false := hothers 0 a List.getElem?_cons_zero (by omega)
      rw [List.filter_cons, if_neg (by simp [hpa])]
      exact ih j o (by simpa using h) hp
        (fun k o' hk hne => hothers (k + 1) o' (by simpa using hk) (by omega))

theorem filterMap_all_some_length {α β : Type} (f : α → Option β) :
    ∀ (l : List α), (∀ a ∈ l, (f a).isSome) → (l.filterMap f).length = l.length := by
  intro l
  induction l with
  | nil => simp
  | cons a t ih =>
    intro h
    have ha : (f a).isSome := h a (List.mem_cons_self a t)
    obtain ⟨b, hb⟩ := Option.isSome_iff_exists.mp ha
    rw [List.filterMap_cons, hb]
    simp only [List.length_cons]
    rw [ih (fun x hx => h x (List.mem_cons_of_mem a hx))]

theorem decorLoop_fst {P O : Type} (decorators : List (Decorator P)) :
    ∀ (pairs : List (P × ChaincodeInput)) (txp : TransactionParams O),
      (decorLoop decorators pairs txp).1 =
        pairs.map (fun pr => Apply pr.1 { pr.2 with Decorations := [] } decorators) := by
  intro pairs
  induction pairs with
  | nil =>
    intro txp
    rfl
  | cons pr rest ih =>
    intro txp
    simp only [decorLoop, List.map_cons, List.cons.injEq, true_and, eq_self_iff_true]
    exact ih _

theorem decorLoop_snd_decorations {P O : Type} (decorators : List (Decorator P)) :
    ∀ (pairs : List (P × ChaincodeInput)) (txp : TransactionParams O)
      (lastInp : ChaincodeInput),
      (decorLoop decorators pairs txp).1.getLast? = some lastInp →
      (decorLoop decorators pairs txp).2.ProposalDecorations = lastInp.Decorations := by
  intro pairs
  induction pairs with
  | nil =>
    intro txp lastInp h
    simp [decorLoop] at h
  | cons pr rest ih =>
    intro txp lastInp h
    have hstep : decorLoop decorators (pr :: rest) txp =
        ((Apply pr.1 { pr.2 with Decorations := [] } decorators) ::
          (decorLoop decorators rest
            { txp with ProposalDecorations :=
                (Apply pr.1 { pr.2 with Decorations := [] } decorators).Decorations }).1,
         (decorLoop decorators rest
            { txp with ProposalDecorations :=
                (Apply pr.1 { pr.2 with Decorations := [] } decorators).Decorations }).2) := rfl
    rw [hstep] at h ⊢
    cases rest with
    | nil =>
      simp only [decorLoop, List.getLast?_singleton] at h
      injection h with h2
      simp only [decorLoop]
      rw [← h2]
    | cons q rest2 =>
      have hne : (decorLoop decorators (q :: rest2)
          { txp with ProposalDecorations :=
              (Apply pr.1 { pr.2 with Decorations := [] } decorators).Decorations }).1 ≠ [] := by
        rw [decorLoop_fst]
        simp
      obtain ⟨x, xs, hxxs⟩ := List.exists_cons_of_ne_nil hne
      rw [hxxs, List.getLast?_cons_cons, ← hxxs] at h
      exact ih _ lastInp h

/-- Concrete backends, inputs and parameters used by witnesses and
counterexamples. -/
def supA : ChaincodeSupport Nat Nat Nat String := ⟨"c0", fun _ _ _ => (0, 0, none)⟩

def supB : ChaincodeSupport Nat Nat Nat String := ⟨"c1", fun _ _ _ => (1, 1, none)⟩

def txpA : TransactionParams Nat := ⟨[], 0⟩

def inpF : ChaincodeInput := ⟨["f"], []⟩

def inpCfg : ChaincodeInput := ⟨["GetConfigBlock"], []⟩

def tagDecorator : Decorator Nat :=
  fun _ inp => { inp with Decorations := inp.Decorations ++ [("tag", "v")] }

/-- C7: before any task is dispatched, each input of the batch is processed
sequentially in index order: its decoration mapping is first set to empty,
then every registered decorator is applied in the fixed registration order,
so each decorator receives an input whose decorations come only from earlier
decorators of the same pass, and any caller-supplied decorations are
discarded. -/
theorem decoration_loop_spec {P O : Type} (decorators : List (Decorator P))
    (pairs : List (P × ChaincodeInput)) (txp : TransactionParams O) :
    (decorLoop decorators pairs txp).1 =
      pairs.map (fun pr =>
        decorators.foldl (fun inp d => d pr.1 inp) { pr.2 with Decorations := [] }) := by
  rw [decorLoop_fst]
  rfl

/-- C9: after the decoration loop and before any task runs, the shared
transaction parameters' `ProposalDecorations` equals the decoration mapping
of the last decorated input, and every dispatched task, regardless of its
index, receives this same single transaction-parameters value. -/
theorem txparams_shared_last_decorations {P O R E Err : Type}
    (roster : List (ChaincodeSupport O R E Err)) (decorators : List (Decorator P))
    (name version : String) (txp : TransactionParams O)
    (pairs : List (P × ChaincodeInput)) (lastInp : ChaincodeInput)
    (hlast : (decorLoop decorators pairs txp).1.getLast? = some lastInp) :
    (decorLoop decorators pairs txp).2.ProposalDecorations = lastInp.Decorations ∧
    ∀ i sup t c inp,
      taskCall roster name version (decorLoop decorators pairs txp).2
        (decorLoop decorators pairs txp).1 i = some (sup, t, c, inp) →
      t = (decorLoop decorators pairs txp).2 := by
  constructor
  · exact decorLoop_snd_decorations decorators pairs txp lastInp hlast
  · intro i sup t c inp h
    unfold taskCall at h
    rw [Option.map_eq_some'] at h
    obtain ⟨sup0, hs0, heq⟩ := h
    injection heq with h1 hrest
    injection hrest with h2 hrest2
    exact h2.symm

theorem txparams_shared_last_decorations_witness :
    (decorLoop [tagDecorator] [((0 : Nat), ⟨["f"], [("old", "x")]⟩), (1, ⟨["g"], []⟩)]
        txpA).1.getLast? = some (⟨["g"], [("tag", "v")]⟩ : ChaincodeInput) ∧
    (decorLoop [tagDecorator] [((0 : Nat), ⟨["f"], [("old", "x")]⟩), (1, ⟨["g"], []⟩)]
        txpA).2.ProposalDecorations = [("tag", "v")] :=
  ⟨by decide,
   (txparams_shared_last_decorations [supA] [tagDecorator] "mycc" "1.0" txpA
      [((0 : Nat), ⟨["f"], [("old", "x")]⟩), (1, ⟨["g"], []⟩)]
      ⟨["g"], [("tag", "v")]⟩ (by decide)).1⟩

/-- C3 (amended): the effective chaincode version passed to the backend is the
caller-supplied version exactly when the chaincode name is one of the two
reserved system chaincode names (cscc, lscc); for every other name the
backend's container tag is appended (version2 = version + "-" +
containerName). -/
theorem effective_version_amended {O R E Err : Type}
    (roster : List (ChaincodeSupport O R E Err)) (name version : String)
    (txp : TransactionParams O) (inputs : List ChaincodeInput) (i : Nat)
    (sup : ChaincodeSupport O R E Err) (t : TransactionParams O) (c : CCContext)
    (inp : ChaincodeInput)
    (h : taskCall roster name version txp inputs i = some (sup, t, c, inp)) :
    c.Version =
      if name = csccName ∨ name = lsccName then version
      else version ++ dashSep ++ sup.CCContainerName := by
  unfold taskCall at h
  rw [Option.map_eq_some'] at h
  obtain ⟨sup0, hs0, heq⟩ := h
  injection heq with h1 hrest
  injection hrest with h2 hrest2
  injection hrest2 with h3 h4
  rw [← h3, h1]
  show effectiveVersion name version sup.CCContainerName = _
  unfold effectiveVersion
  by_cases hn : name = csccName ∨ name = lsccName
  · rw [if_neg (by tauto), if_pos hn]
  · rw [if_pos (by tauto), if_neg hn]

theorem effective_version_amended_witness :
    (CCContext.mk "mycc" (effectiveVersion "mycc" "1.0" "c0")).Version =
      if "mycc" = csccName ∨ "mycc" = lsccName then "1.0"
      else "1.0" ++ dashSep ++ supA.CCContainerName :=
  effective_version_amended [supA] "mycc" "1.0" txpA [inpF] 0 supA txpA
    (CCContext.mk "mycc" (effectiveVersion "mycc" "1.0" "c0")) inpF rfl

/-- C3 counterexample: for the reserved name cscc the code does NOT append
the backend container tag: the version in the chaincode context passed to the
backend is the caller version "1.0", not "1.0" + "-" + "c0" as the claim
requires for reserved names. -/
theorem effective_version_counterexample :
    (taskCall [supA] csccName "1.0" txpA [inpF] 0).map (fun call => call.2.2.1.Version) =
      some "1.0" ∧ ("1.0" : String) ≠ "1.0" ++ dashSep ++ "c0" := by
  constructor
  · rfl
  · decide

/-- C4: for a batch whose roster is at least as long as the input list and an
index `i` within the batch, an input whose first argument is the
config-block marker is dispatched to the backend at the last position of the
roster (independently of `i`), and any other input is dispatched to the
backend at position `i` of the roster. -/
theorem select_backend_routing {O R E Err : Type}
    (roster : List (ChaincodeSupport O R E Err)) (inputs : List ChaincodeInput)
    (i : Nat) (input : ChaincodeInput) (hroster : inputs.length ≤ roster.length)
    (hi : i < inputs.length) (hin : inputs[i]? = some input) :
    (input.Args.head? = some configBlockMarker →
      selectBackend roster input i =
        some (roster.get ⟨roster.length - 1, by omega⟩)) ∧
    (input.Args.head? ≠ some configBlockMarker →
      selectBackend roster input i = some (roster.get ⟨i, by omega⟩)) := by
  constructor
  · intro hm
    simp only [selectBackend, if_pos hm]
    rw [List.getElem?_eq_getElem (show roster.length - 1 < roster.length by omega)]
    rfl
  · intro hm
    simp only [selectBackend, if_neg hm]
    rw [List.getElem?_eq_getElem (show i < roster.length by omega)]
    rfl

theorem select_backend_routing_witness :
    selectBackend [supA, supB] inpCfg 0 = some ([supA, supB].get ⟨1, by decide⟩) :=
  (select_backend_routing [supA, supB] [inpCfg, inpF] 0 inpCfg (by decide) (by decide)
    (by decide)).1 (by decide)

/-- C8: for a channel with no ledger handle, each ledger-delegation operation
returns the zero value of its result type together with a non-nil
descriptive error, and (having no handle) performs no ledger call. -/
theorem missing_ledger_errors {TxSim HQE Tx : Type} (peer : PeerOperations TxSim HQE Tx)
    (ch txid : String) (hp : peer ch = none) :
    GetTxSimulator peer ch txid = (none, some (msgChannelNotExist ch)) ∧
    GetHistoryQueryExecutor peer ch = (none, some (msgChannelNotExist ch)) ∧
    GetTransactionByID peer ch txid = (none, some (msgNoLedger ch)) ∧
    GetLedgerHeight peer ch = (0, some (msgNoLedger ch)) ∧
    NewQueryCreator peer ch = (none, some (msgChannelDoesntExist ch)) := by
  refine ⟨?_, ?_, ?_, ?_, ?_⟩ <;>
    simp [GetTxSimulator, GetHistoryQueryExecutor, GetTransactionByID,
      GetLedgerHeight, NewQueryCreator, hp]

/-- A peer with no ledgers, for the C8 witness. -/
def peerNone : PeerOperations Nat Nat Nat := fun _ => none

theorem missing_ledger_errors_witness :
    peerNone "mychannel" = none ∧
    GetLedgerHeight peerNone "mychannel" = (0, some (msgNoLedger "mychannel")) :=
  ⟨rfl, (missing_ledger_errors peerNone "mychannel" "tx1" rfl).2.2.2.1⟩

/-- C10: `CheckACL` depends only on the signed proposal and the channel
header's `ChannelId`: two calls agreeing on those return the same result
whatever the signature header, the header extension, or the other channel
header fields are. -/
theorem checkacl_depends_only_on_channel_id (acl : ACLProvider) (sp : SignedProposal)
    (chdr1 chdr2 : ChannelHeader) (shdr1 shdr2 : SignatureHeader)
    (he1 he2 : ChaincodeHeaderExtension) (h : chdr1.ChannelId = chdr2.ChannelId) :
    CheckACL acl sp chdr1 shdr1 he1 = CheckACL acl sp chdr2 shdr2 he2 := by
  unfold CheckACL
  rw [h]

def aclEcho : ACLProvider := fun _ ch _ => some ch

def chanHdr1 : ChannelHeader := ⟨1, 1, "chA", "tx1", 0, "ext1"⟩

def chanHdr2 : ChannelHeader := ⟨2, 9, "chA", "tx2", 7, "ext2"⟩

theorem checkacl_depends_only_on_channel_id_witness :
    chanHdr1.ChannelId = chanHdr2.ChannelId ∧
    CheckACL aclEcho ⟨"pb", "sig"⟩ chanHdr1 ⟨"creator1", "n1"⟩ ⟨"cc1"⟩ =
      CheckACL aclEcho ⟨"pb", "sig"⟩ chanHdr2 ⟨"creator2", "n2"⟩ ⟨"cc2"⟩ :=
  ⟨rfl, checkacl_depends_only_on_channel_id aclEcho ⟨"pb", "sig"⟩ chanHdr1 chanHdr2
    ⟨"creator1", "n1"⟩ ⟨"creator2", "n2"⟩ ⟨"cc1"⟩ ⟨"cc2"⟩ rfl⟩

/-- C6: for a stream offering the batch's `N` outcomes (`N ≥ 1`) followed by
any further values, the aggregation loop terminates, consumes exactly the `N`
outcomes — one response and one event collected per consumed outcome, none
dropped or double-counted, the rest of the stream left untouched — and exits
exactly when the number of collected responses reaches `N`. -/
theorem aggregation_loop_consumes_exactly_n {R E Err : Type} (N : Nat)
    (outs extra : List (Outcome R E Err)) (hlen : outs.length = N) (hN : 1 ≤ N) :
    (aggLoop N (outs ++ extra) [] [] none).2.2.2 = extra ∧
    (aggLoop N (outs ++ extra) [] [] none).1.length = N ∧
    (aggLoop N (outs ++ extra) [] [] none).2.1.length = N := by
  have hne : outs ≠ [] := by
    intro h
    rw [h] at hlen
    simp at hlen
    omega
  rw [aggLoop_run N outs extra [] [] none hne (by simpa using hlen)]
  refine ⟨rfl, ?_, ?_⟩ <;> simp [setSlot0_length, hlen]

/-- Outcome streams for the aggregation witnesses. -/
def outsW : List (Outcome Nat Nat String) := [⟨1, 1, none⟩, ⟨2, 2, none⟩]

def extraW : List (Outcome Nat Nat String) := [⟨3, 3, none⟩]

def outsW2 : List (Outcome Nat Nat String) := [⟨1, 1, none⟩, ⟨2, 2, some "E"⟩, ⟨3, 3, none⟩]

theorem aggregation_loop_consumes_exactly_n_witness :
    (aggLoop 2 (outsW ++ extraW) [] [] none).2.2.2 = extraW ∧
    (aggLoop 2 (outsW ++ extraW) [] [] none).1.length = 2 ∧
    (aggLoop 2 (outsW ++ extraW) [] [] none).2.1.length = 2 :=
  aggregation_loop_consumes_exactly_n 2 outsW extraW rfl (by decide)

/-- C2 (amended): the error the aggregation returns is the most recently
observed per-task error in completion order — the final consumed outcome's
error — and the aggregator overwrites index 0 of both collections with the
response and event of every failing outcome except the final consumed one:
slot 0 ends up holding the pair of the last failing outcome among the first
N-1 consumed outcomes (the loop exits before the overwrite of the final
one). -/
theorem aggregate_error_overwrite_amended {R E Err : Type} (N : Nat)
    (outs : List (Outcome R E Err)) (hne : outs ≠ []) (hlen : outs.length = N) :
    aggLoop N outs [] [] none =
      (setSlot0 (outs.map Outcome.response)
         ((lastFailBeforeLast outs).map Outcome.response),
       setSlot0 (outs.map Outcome.event)
         ((lastFailBeforeLast outs).map Outcome.event),
       lastError outs, []) :=
  aggLoop_run_simple N outs hne hlen

theorem aggregate_error_overwrite_amended_witness :
    aggLoop 3 outsW2 [] [] none =
      (setSlot0 (outsW2.map Outcome.response)
         ((lastFailBeforeLast outsW2).map Outcome.response),
       setSlot0 (outsW2.map Outcome.event)
         ((lastFailBeforeLast outsW2).map Outcome.event),
       lastError outsW2, []) :=
  aggregate_error_overwrite_amended 3 outsW2 (by decide) rfl

/-- C2 counterexample: in the stream [(5,6,ok), (7,8,error E)] with N = 2, the
second collected outcome carries a non-nil error, yet the aggregator does not
overwrite index 0: the loop exits first, leaving (5,6) — not (7,8) — at index
0 of the collections, refuting the claim that every failing outcome's pair
overwrites index 0. -/
theorem aggregate_error_overwrite_counterexample :
    aggLoop 2 [⟨5, 6, none⟩, ⟨7, 8, some "E"⟩] ([] : List Nat) ([] : List Nat) none =
      ([5, 7], [6, 8], some "E", []) ∧ (5 : Nat) ≠ 7 := by
  constructor
  · rfl
  · decide

/-- C5: for a batch of `N ≥ 1` inputs (with matching proposals and a roster of
at least `N` backends) in which every dispatched task produces a nil error,
`Execute` returns a response collection of length `N`, an event collection of
length `N`, and a nil error, whatever the completion order of the tasks. -/
theorem execute_all_success {P O R E Err : Type}
    (roster : List (ChaincodeSupport O R E Err)) (decorators : List (Decorator P))
    (name version : String) (txp : TransactionParams O) (props : List P)
    (inputs : List ChaincodeInput) (order : List Nat)
    (hprops : props.length = inputs.length) (hN : 1 ≤ inputs.length)
    (hroster : inputs.length ≤ roster.length)
    (horder : order.Perm (List.range inputs.length))
    (hsucc : ∀ i o, i ∈ order →
      taskOutcome roster name version (decorLoop decorators (props.zip inputs) txp).2
        (decorLoop decorators (props.zip inputs) txp).1 i = some o → o.error = none) :
    (ExecuteModel roster decorators name version txp props inputs order).1.length =
      inputs.length ∧
    (ExecuteModel roster decorators name version txp props inputs order).2.1.length =
      inputs.length ∧
    (ExecuteModel roster decorators name version txp props inputs order).2.2 = none := by
  have hordlen : order.length = inputs.length := by
    have h := horder.length_eq
    simpa using h
  have hmem : ∀ i ∈ order, i < inputs.length := by
    intro i hi
    have h := horder.mem_iff.mp hi
    simpa using h
  have hsome : ∀ i ∈ order,
      (taskOutcome roster name version (decorLoop decorators (props.zip inputs) txp).2
        (decorLoop decorators (props.zip inputs) txp).1 i).isSome := by
    intro i hi
    have hiN := hmem i hi
    simp only [taskOutcome, taskCall, Option.isSome_map']
    unfold selectBackend
    split
    · rw [List.getElem?_eq_getElem (show roster.length - 1 < roster.length by omega)]
      rfl
    · rw [List.getElem?_eq_getElem (show i < roster.length by omega)]
      rfl
  have houtslen :
      (order.filterMap (taskOutcome roster name version
        (decorLoop decorators (props.zip inputs) txp).2
        (decorLoop decorators (props.zip inputs) txp).1)).length = inputs.length := by
    rw [filterMap_all_some_length _ order hsome, hordlen]
  have houtsne :
      order.filterMap (taskOutcome roster name version
        (decorLoop decorators (props.zip inputs) txp).2
        (decorLoop decorators (props.zip inputs) txp).1) ≠ [] := by
    intro h
    rw [h] at houtslen
    simp at houtslen
    omega
  have herr : ∀ o ∈ order.filterMap (taskOutcome roster name version
      (decorLoop decorators (props.zip inputs) txp).2
      (decorLoop decorators (props.zip inputs) txp).1), o.error = none := by
    intro o ho
    obtain ⟨i, hi, hfi⟩ := List.mem_filterMap.mp ho
    exact hsucc i o hi hfi
  have hlfb : lastFailBeforeLast (order.filterMap (taskOutcome roster name version
      (decorLoop decorators (props.zip inputs) txp).2
      (decorLoop decorators (props.zip inputs) txp).1)) = none := by
    unfold lastFailBeforeLast
    rw [List.getLast?_eq_none_iff, List.filter_eq_nil_iff]
    intro a ha
    have h := herr a (List.dropLast_subset _ ha)
    simp [h]
  have hlast : lastError (order.filterMap (taskOutcome roster name version
      (decorLoop decorators (props.zip inputs) txp).2
      (decorLoop decorators (props.zip inputs) txp).1)) = none := by
    unfold lastError
    cases hgl : (order.filterMap (taskOutcome roster name version
        (decorLoop decorators (props.zip inputs) txp).2
        (decorLoop decorators (props.zip inputs) txp).1)).getLast? with
    | none => rfl
    | some o => exact herr o (List.mem_of_getLast?_eq_some hgl)
  simp only [ExecuteModel]
  rw [aggLoop_run_simple inputs.length _ houtsne houtslen, hlfb, hlast]
  refine ⟨?_, ?_, rfl⟩ <;> simp [setSlot0, houtslen]

theorem execute_all_success_witness :
    (ExecuteModel [supA, supB] ([] : List (Decorator Nat)) "mycc" "1.0" txpA
        [0, 0] [inpF, inpF] [1, 0]).1.length = 2 ∧
    (ExecuteModel [supA, supB] ([] : List (Decorator Nat)) "mycc" "1.0" txpA
        [0, 0] [inpF, inpF] [1, 0]).2.1.length = 2 ∧
    (ExecuteModel [supA, supB] ([] : List (Decorator Nat)) "mycc" "1.0" txpA
        [0, 0] [inpF, inpF] [1, 0]).2.2 = none := by
  refine execute_all_success [supA, supB] ([] : List (Decorator Nat)) "mycc" "1.0" txpA
    [0, 0] [inpF, inpF] [1, 0] rfl (by decide) (by decide) (by decide) ?_
  intro i o hi hfi
  simp only [List.mem_cons, List.not_mem_nil, or_false] at hi
  rcases hi with rfl | rfl
  · have hv : taskOutcome [supA, supB] "mycc" "1.0"
        (decorLoop ([] : List (Decorator Nat)) ([(0 : Nat), 0].zip [inpF, inpF]) txpA).2
        (decorLoop ([] : List (Decorator Nat)) ([(0 : Nat), 0].zip [inpF, inpF]) txpA).1 1 =
        some ⟨1, 1, none⟩ := rfl
    rw [hv] at hfi
    injection hfi with h
    rw [← h]
  · have hv : taskOutcome [supA, supB] "mycc" "1.0"
        (decorLoop ([] : List (Decorator Nat)) ([(0 : Nat), 0].zip [inpF, inpF]) txpA).2
        (decorLoop ([] : List (Decorator Nat)) ([(0 : Nat), 0].zip [inpF, inpF]) txpA).1 0 =
        some ⟨0, 0, none⟩ := rfl
    rw [hv] at hfi
    injection hfi with h
    rw [← h]

/-- C1 (amended): if exactly one dispatched task produces a non-nil error
(all others succeed), the batch result depends on where the failing outcome
sits in the completion order: when it is the last of the `N` consumed
outcomes, `Execute` returns that task's error but index 0 of both output
collections holds the first-consumed outcome's pair (the loop exits before
the overwrite); when it is not the last consumed, index 0 of both collections
equals the failing task's (response, event) pair but the returned error is
the last-consumed succeeding task's error, i.e. nil. -/
theorem execute_single_failure_amended {P O R E Err : Type}
    (roster : List (ChaincodeSupport O R E Err)) (decorators : List (Decorator P))
    (name version : String) (txp : TransactionParams O) (props : List P)
    (inputs : List ChaincodeInput) (order : List Nat)
    (outs : List (Outcome R E Err)) (p : Nat) (ofail : Outcome R E Err) (e : Err)
    (houts : order.filterMap (taskOutcome roster name version
      (decorLoop decorators (props.zip inputs) txp).2
      (decorLoop decorators (props.zip inputs) txp).1) = outs)
    (hlen : outs.length = inputs.length) (hN : 1 ≤ inputs.length)
    (hp : outs[p]? = some ofail) (hfail : ofail.error = some e)
    (hothers : ∀ k o', outs[k]? = some o' → k ≠ p → o'.error = none) :
    (p = inputs.length - 1 →
      (ExecuteModel roster decorators name version txp props inputs order).2.2 = some e ∧
      (ExecuteModel roster decorators name version txp props inputs order).1[0]? =
        (outs[0]?).map Outcome.response ∧
      (ExecuteModel roster decorators name version txp props inputs order).2.1[0]? =
        (outs[0]?).map Outcome.event) ∧
    (p ≠ inputs.length - 1 →
      (ExecuteModel roster decorators name version txp props inputs order).2.2 = none ∧
      (ExecuteModel roster decorators name version txp props inputs order).1[0]? =
        some ofail.response ∧
      (ExecuteModel roster decorators name version txp props inputs order).2.1[0]? =
        some ofail.event) := by
  have hpN : p < outs.length := by
    by_contra hcon
    rw [List.getElem?_eq_none (by omega)] at hp
    exact Option.noConfusion hp
  have houtsne : outs ≠ [] := by
    intro h
    rw [h] at hlen
    simp at hlen
    omega
  simp only [ExecuteModel]
  rw [houts, aggLoop_run_simple inputs.length outs houtsne hlen]
  constructor
  · intro hpe
    have hgl : outs.getLast? = some ofail := by
      rw [List.getLast?_eq_getElem?]
      have hidx : outs.length - 1 = p := by omega
      rw [hidx]
      exact hp
    have hle : lastError outs = some e := by
      unfold lastError
      rw [hgl]
      exact hfail
    have hlf : lastFailBeforeLast outs = none := by
      unfold lastFailBeforeLast
      rw [List.getLast?_eq_none_iff, List.filter_eq_nil_iff]
      intro a ha
      rw [List.dropLast_eq_take] at ha
      obtain ⟨k, hk⟩ := List.mem_iff_getElem?.mp ha
      have hk2 : k < outs.length - 1 := by
        by_contra hcon
        rw [List.getElem?_eq_none (by simp [List.length_take]; omega)] at hk
        exact Option.noConfusion hk
      rw [List.getElem?_take_of_lt hk2] at hk
      have h := hothers k a hk (by omega)
      simp [h]
    rw [hle, hlf]
    refine ⟨rfl, ?_, ?_⟩ <;> simp [setSlot0, List.getElem?_map]
  · intro hpne
    have hplt : p < outs.length - 1 := by omega
    have hgls : outs.getLast?.isSome := List.getLast?_isSome.mpr houtsne
    obtain ⟨olast, hgl⟩ := Option.isSome_iff_exists.mp hgls
    have holast : olast.error = none := by
      have hidx : outs[outs.length - 1]? = some olast := by
        rw [← List.getLast?_eq_getElem?]
        exact hgl
      exact hothers (outs.length - 1) olast hidx (by omega)
    have hle : lastError outs = none := by
      unfold lastError
      rw [hgl]
      exact holast
    have hlf : lastFailBeforeLast outs = some ofail := by
      unfold lastFailBeforeLast
      have hfilter : outs.dropLast.filter (fun o => o.error.isSome) = [ofail] := by
        apply filter_eq_singleton_of_unique _ _ p
        · rw [List.dropLast_eq_take, List.getElem?_take_of_lt hplt]
          exact hp
        · simp [hfail]
        · intro k o' hk hkp
          rw [List.dropLast_eq_take] at hk
          have hk2 : k < outs.length - 1 := by
            by_contra hcon
            rw [List.getElem?_eq_none (by simp [List.length_take]; omega)] at hk
            exact Option.noConfusion hk
          rw [List.getElem?_take_of_lt hk2] at hk
          have h := hothers k o' hk hkp
          simp [h]
      rw [hfilter]
      rfl
    rw [hle, hlf]
    refine ⟨rfl, ?_, ?_⟩
    · show (setSlot0 (outs.map Outcome.response) (some ofail.response))[0]? = _
      simp only [setSlot0]
      rw [List.getElem?_set_self (by simp; omega)]
    · show (setSlot0 (outs.map Outcome.event) (some ofail.event))[0]? = _
      simp only [setSlot0]
      rw [List.getElem?_set_self (by simp; omega)]

/-- A backend whose execute operation fails, for the C1 instances. -/
def supFail : ChaincodeSupport Nat Nat Nat String :=
  ⟨"c1", fun _ _ _ => (11, 21, some "boom")⟩

theorem execute_single_failure_amended_witness :
    (ExecuteModel [supA, supFail] ([] : List (Decorator Nat)) "mycc" "1.0" txpA
        [0, 0] [inpF, inpF] [1, 0]).2.2 = none ∧
    (ExecuteModel [supA, supFail] ([] : List (Decorator Nat)) "mycc" "1.0" txpA
        [0, 0] [inpF, inpF] [1, 0]).1[0]? = some 11 ∧
    (ExecuteModel [supA, supFail] ([] : List (Decorator Nat)) "mycc" "1.0" txpA
        [0, 0] [inpF, inpF] [1, 0]).2.1[0]? = some 21 := by
  refine (execute_single_failure_amended [supA, supFail] ([] : List (Decorator Nat))
    "mycc" "1.0" txpA [0, 0] [inpF, inpF] [1, 0]
    [⟨11, 21, some "boom"⟩, ⟨0, 0, none⟩] 0 ⟨11, 21, some "boom"⟩ "boom"
    rfl rfl (by decide) rfl rfl ?_).2 (by decide)
  intro k o' hk hkp
  cases k with
  | zero => exact absurd rfl hkp
  | succ k2 =>
    cases k2 with
    | zero =>
      injection hk with h
      rw [← h]
      rfl
    | succ k3 =>
      rw [List.getElem?_eq_none (by simp)] at hk
      exact Option.noConfusion hk

/-- C1 counterexample: a batch of two tasks in which exactly task 1 fails
(error "boom", response 11, event 21) while task 0 succeeds (response 0,
event 0), run with completion order (task 0 first, task 1 last): `Execute`
returns the failing error, but index 0 of the response and event collections
holds task 0's pair (0, 0), not the failing task's (11, 21) — refuting the
claim that slot 0 equals the failing pair regardless of completion order. -/
theorem execute_single_failure_counterexample :
    ExecuteModel [supA, supFail] ([] : List (Decorator Nat)) "mycc" "1.0" txpA
      [0, 0] [inpF, inpF] [0, 1] = ([0, 11], [0, 21], some "boom") ∧
    (0 : Nat) ≠ 11 ∧ (0 : Nat) ≠ 21 := by
  refine ⟨rfl, by decide, by decide⟩
